import Mathlib

/-!
Verification of the pics2pdf image-transform and page-layout engine.

The definitions below are a shallow embedding of the JavaScript source:
  - `mmToPx` embeds the unit converter of the high-DPI variant
    (`mmToPx` in the source, rounding millimetres times dots-per-inch
    over 25.4 to the nearest integer, halves rounding up as JS
    `Math.round` does);
  - `tmpCanvasDims`, `fitDims`, `composedDims` embed the dimension
    arithmetic of `drawRotatedCanvas` (rotation-scale compositor);
  - `planGo` / `generatePDFplan` embed the per-image placement loop of
    `generatePDF` (2 by 2 grid on A4, 210mm by 297mm pages);
  - `moveItem`, `moveUp`, `moveDown` embed the reorder operations;
  - `rotateImage` embeds the 90-degree rotation step of the ordered
    collection model;
  - `generatePDF` embeds the top-level entry point including its
    empty-input guard.

Real-number arithmetic of the source is embedded over `ℚ`; the source
values in play (210, 297, 105, 148.5, 25.4, pixel counts) are exact.
-/

namespace Pics2PDF

/-- One entry of the ordered collection: an opaque reference to the
selected file together with its current rotation in degrees.
In the source: objects of shape `\x7b file, rotation \x7d`. -/
structure ImageEntry where
  file : ℕ
  rotation : ℕ
deriving DecidableEq, Repr

/-- Embedding of `mmToPx(mm, dpi)`: `Math.round(mm * (dpi / 25.4))`.
JS `Math.round` rounds half-way cases up, exactly as Mathlib `round`. -/
def mmToPx (mm : ℚ) (dpi : ℕ) : ℤ :=
  round (mm * ((dpi : ℚ) / (254 / 10)))

/-- C5: `mmToPx` computes `round(mm * dpi / 25.4)`, is monotone in the
length and in the density, and maps 25.4 mm to exactly `dpi` pixels. -/
theorem mmToPx_spec (mm mm' : ℚ) (d d' : ℕ)
    (hmm : 0 < mm) (hmm' : 0 < mm') (hd : 0 < d) (hd' : 0 < d') :
    mmToPx mm d = round (mm * d / (254 / 10)) ∧
    (mm ≤ mm' → mmToPx mm d ≤ mmToPx mm' d) ∧
    (d ≤ d' → mmToPx mm d ≤ mmToPx mm d') ∧
    mmToPx (254 / 10) d = d := by
  have h254 : (0 : ℚ) < 254 / 10 := by norm_num
  refine ⟨?_, ?_, ?_, ?_⟩
  · unfold mmToPx
    rw [mul_div_assoc]
  · intro hle
    unfold mmToPx
    rw [round_eq, round_eq]
    apply Int.floor_le_floor
    have : mm * ((d : ℚ) / (254 / 10)) ≤ mm' * ((d : ℚ) / (254 / 10)) := by
      apply mul_le_mul_of_nonneg_right hle
      positivity
    linarith
  · intro hle
    unfold mmToPx
    rw [round_eq, round_eq]
    apply Int.floor_le_floor
    have hcast : (d : ℚ) ≤ (d' : ℚ) := by exact_mod_cast hle
    have : mm * ((d : ℚ) / (254 / 10)) ≤ mm * ((d' : ℚ) / (254 / 10)) := by
      apply mul_le_mul_of_nonneg_left _ (le_of_lt hmm)
      apply div_le_div_of_nonneg_right hcast h254.le
    linarith
  · unfold mmToPx
    have hx : (254 / 10 : ℚ) * ((d : ℚ) / (254 / 10)) = (d : ℚ) := by
      field_simp
      ring
    rw [hx, round_natCast]

/-- Embedding of the canvas-size predicate of `drawRotatedCanvas`:
`rotation === 90 || rotation === 270`. -/
def rotated90or270 (rotation : ℕ) : Bool :=
  rotation == 90 || rotation == 270

/-- Dimensions of the intermediate (pre-fit) canvas of `drawRotatedCanvas`:
`(img.height, img.width)` when the rotation is 90 or 270, else
`(img.width, img.height)`. -/
def tmpCanvasDims (imgWidth imgHeight : ℚ) (rotation : ℕ) : ℚ × ℚ :=
  if rotated90or270 rotation then (imgHeight, imgWidth) else (imgWidth, imgHeight)

/-- Embedding of the scale-to-fit step of `drawRotatedCanvas`: with
`ratio = canvas.width / canvas.height` and `boxRatio = maxWidth / maxHeight`,
if `ratio > boxRatio` the output is `(maxWidth, maxWidth / ratio)`, else
`(maxHeight * ratio, maxHeight)`. -/
def fitDims (canvasWidth canvasHeight maxWidth maxHeight : ℚ) : ℚ × ℚ :=
  if canvasWidth / canvasHeight > maxWidth / maxHeight then
    (maxWidth, maxWidth / (canvasWidth / canvasHeight))
  else
    (maxHeight * (canvasWidth / canvasHeight), maxHeight)

/-- Output bitmap dimensions of `drawRotatedCanvas`: rotate (swapping the
base canvas dimensions when needed), then scale to fit the target box. -/
def composedDims (imgWidth imgHeight : ℚ) (rotation : ℕ)
    (maxWidth maxHeight : ℚ) : ℚ × ℚ :=
  fitDims (tmpCanvasDims imgWidth imgHeight rotation).1
    (tmpCanvasDims imgWidth imgHeight rotation).2 maxWidth maxHeight

lemma fitDims_spec (cw ch tw th : ℚ)
    (hcw : 0 < cw) (hch : 0 < ch) (htw : 0 < tw) (hth : 0 < th) :
    0 < (fitDims cw ch tw th).1 ∧ 0 < (fitDims cw ch tw th).2 ∧
    (fitDims cw ch tw th).1 ≤ tw ∧ (fitDims cw ch tw th).2 ≤ th ∧
    (fitDims cw ch tw th).1 / (fitDims cw ch tw th).2 = cw / ch := by
  have hrpos : 0 < cw / ch := div_pos hcw hch
  unfold fitDims
  by_cases hcmp : cw / ch > tw / th
  · rw [if_pos hcmp]
    refine ⟨htw, div_pos htw hrpos, le_refl tw, ?_, ?_⟩
    · have h1 : tw < cw / ch * th := (div_lt_iff hth).mp hcmp
      have h2 : tw / (cw / ch) < th := by
        rw [div_lt_iff hrpos]
        linarith [mul_comm th (cw / ch)]
      exact h2.le
    · rw [div_div_eq_mul_div, mul_comm, mul_div_assoc,
        div_self (ne_of_gt htw), mul_one]
  · rw [if_neg hcmp]
    push_neg at hcmp
    refine ⟨mul_pos hth hrpos, hth, ?_, le_refl th, ?_⟩
    · have h1 : th * (cw / ch) ≤ th * (tw / th) :=
        mul_le_mul_of_nonneg_left hcmp hth.le
      have h2 : th * (tw / th) = tw := by field_simp
      linarith
    · rw [mul_comm, mul_div_assoc, div_self (ne_of_gt hth), mul_one]

lemma fitDims_order (cw ch tw th : ℚ)
    (hcw : 0 < cw) (hch : 0 < ch) (htw : 0 < tw) (hth : 0 < th) :
    ((fitDims cw ch tw th).2 ≤ (fitDims cw ch tw th).1 ↔ ch ≤ cw) := by
  obtain ⟨h1, h2, h3, h4, h5⟩ := fitDims_spec cw ch tw th hcw hch htw hth
  rw [← one_le_div h2, h5, one_le_div hch]

lemma rotated90or270_false (rot : ℕ) (h90 : rot ≠ 90) (h270 : rot ≠ 270) :
    rotated90or270 rot = false := by
  simp [rotated90or270, h90, h270]

lemma composedDims_bounds (w h tw th : ℚ) (rot : ℕ)
    (hw : 0 < w) (hh : 0 < h) (htw : 0 < tw) (hth : 0 < th) :
    0 < (composedDims w h rot tw th).1 ∧ 0 < (composedDims w h rot tw th).2 ∧
    (composedDims w h rot tw th).1 ≤ tw ∧ (composedDims w h rot tw th).2 ≤ th := by
  unfold composedDims
  have h1 : 0 < (tmpCanvasDims w h rot).1 := by
    unfold tmpCanvasDims
    split <;> simpa
  have h2 : 0 < (tmpCanvasDims w h rot).2 := by
    unfold tmpCanvasDims
    split <;> simpa
  obtain ⟨p1, p2, p3, p4, _⟩ := fitDims_spec _ _ tw th h1 h2 htw hth
  exact ⟨p1, p2, p3, p4⟩

lemma round_le_round (x y : ℚ) (hxy : x ≤ y) : round x ≤ round y := by
  rw [round_eq, round_eq]
  exact Int.floor_le_floor (by linarith)

/-- C3: for every positively sized source bitmap, rotation among the four
right angles and positive target box, the composed output of
`drawRotatedCanvas` never exceeds the target box in either dimension, and
its width over height equals the post-rotation aspect ratio of the
source exactly; moreover in the high-DPI variant, which rounds the final
canvas dimensions to whole pixels, the rounded dimensions still never
exceed any positive integer target box. -/
theorem compositor_fit_bounds (w h tw th : ℚ) (rot : ℕ)
    (hw : 0 < w) (hh : 0 < h) (htw : 0 < tw) (hth : 0 < th)
    (hrot : rot = 0 ∨ rot = 90 ∨ rot = 180 ∨ rot = 270) :
    (composedDims w h rot tw th).1 ≤ tw ∧
    (composedDims w h rot tw th).2 ≤ th ∧
    (composedDims w h rot tw th).1 / (composedDims w h rot tw th).2 =
      (if rot = 90 ∨ rot = 270 then h / w else w / h) ∧
    (∀ m k : ℕ, 0 < m → 0 < k →
      round (composedDims w h rot (m : ℚ) (k : ℚ)).1 ≤ (m : ℤ) ∧
      round (composedDims w h rot (m : ℚ) (k : ℚ)).2 ≤ (k : ℤ)) := by
  have hpix : ∀ m k : ℕ, 0 < m → 0 < k →
      round (composedDims w h rot (m : ℚ) (k : ℚ)).1 ≤ (m : ℤ) ∧
      round (composedDims w h rot (m : ℚ) (k : ℚ)).2 ≤ (k : ℤ) := by
    intro m k hm hk
    have hmq : (0 : ℚ) < (m : ℚ) := by exact_mod_cast hm
    have hkq : (0 : ℚ) < (k : ℚ) := by exact_mod_cast hk
    obtain ⟨_, _, q3, q4⟩ := composedDims_bounds w h (m : ℚ) (k : ℚ) rot hw hh hmq hkq
    constructor
    · have := round_le_round _ _ q3
      rwa [round_natCast] at this
    · have := round_le_round _ _ q4
      rwa [round_natCast] at this
  have hmain : (composedDims w h rot tw th).1 ≤ tw ∧
      (composedDims w h rot tw th).2 ≤ th ∧
      (composedDims w h rot tw th).1 / (composedDims w h rot tw th).2 =
        (if rot = 90 ∨ rot = 270 then h / w else w / h) := by
    by_cases hsw : rot = 90 ∨ rot = 270
    · have hb : rotated90or270 rot = true := by
        rcases hsw with h' | h' <;> simp [rotated90or270, h']
      have hd : tmpCanvasDims w h rot = (h, w) := by
        simp [tmpCanvasDims, hb]
      obtain ⟨p1, p2, p3, p4, p5⟩ := fitDims_spec h w tw th hh hw htw hth
      rw [if_pos hsw]
      unfold composedDims
      rw [hd]
      exact ⟨p3, p4, p5⟩
    · push_neg at hsw
      have hb : rotated90or270 rot = false := rotated90or270_false rot hsw.1 hsw.2
      have hd : tmpCanvasDims w h rot = (w, h) := by
        simp [tmpCanvasDims, hb]
      obtain ⟨p1, p2, p3, p4, p5⟩ := fitDims_spec w h tw th hw hh htw hth
      rw [if_neg (by push_neg; exact hsw)]
      unfold composedDims
      rw [hd]
      exact ⟨p3, p4, p5⟩
  exact ⟨hmain.1, hmain.2.1, hmain.2.2, hpix⟩

/-- C3 witness: a 100 by 100 source at rotation 0 in a 105 by 148.5 box
fits inside the box and keeps its square aspect ratio. -/
theorem compositor_fit_bounds_witness :
    (composedDims 100 100 0 105 (297 / 2)).1 ≤ 105 ∧
    (composedDims 100 100 0 105 (297 / 2)).2 ≤ 297 / 2 ∧
    (composedDims 100 100 0 105 (297 / 2)).1 /
      (composedDims 100 100 0 105 (297 / 2)).2 =
      (if (0 : ℕ) = 90 ∨ (0 : ℕ) = 270 then (100 : ℚ) / 100 else 100 / 100) ∧
    round (composedDims 100 100 0 ((620 : ℕ) : ℚ) ((877 : ℕ) : ℚ)).1 ≤
      ((620 : ℕ) : ℤ) ∧
    round (composedDims 100 100 0 ((620 : ℕ) : ℚ) ((877 : ℕ) : ℚ)).2 ≤
      ((877 : ℕ) : ℤ) := by
  have h := compositor_fit_bounds 100 100 105 (297 / 2) 0 (by norm_num)
    (by norm_num) (by norm_num) (by norm_num) (by norm_num)
  obtain ⟨hp1, hp2⟩ := h.2.2.2 620 877 (by norm_num) (by norm_num)
  exact ⟨h.1, h.2.1, h.2.2.1, hp1, hp2⟩

/-- C4: the intermediate canvas of `drawRotatedCanvas` has dimensions
`(imgWidth, imgHeight)` for rotations 0 and 180 and `(imgHeight, imgWidth)`
for 90 and 270, and consequently the output width/height ordering matches
the source ordering for 0 and 180 and is swapped for 90 and 270. -/
theorem compositor_swap_dims (w h tw th : ℚ)
    (hw : 0 < w) (hh : 0 < h) (htw : 0 < tw) (hth : 0 < th) :
    tmpCanvasDims w h 0 = (w, h) ∧ tmpCanvasDims w h 180 = (w, h) ∧
    tmpCanvasDims w h 90 = (h, w) ∧ tmpCanvasDims w h 270 = (h, w) ∧
    (∀ rot : ℕ, rot = 0 ∨ rot = 180 →
      ((composedDims w h rot tw th).2 ≤ (composedDims w h rot tw th).1 ↔
        h ≤ w)) ∧
    (∀ rot : ℕ, rot = 90 ∨ rot = 270 →
      ((composedDims w h rot tw th).2 ≤ (composedDims w h rot tw th).1 ↔
        w ≤ h)) := by
  refine ⟨by simp [tmpCanvasDims, rotated90or270],
    by simp [tmpCanvasDims, rotated90or270],
    by simp [tmpCanvasDims, rotated90or270],
    by simp [tmpCanvasDims, rotated90or270], ?_, ?_⟩
  · intro rot hrot
    have hb : rotated90or270 rot = false := by
      rcases hrot with h' | h' <;> simp [rotated90or270, h']
    have hd : tmpCanvasDims w h rot = (w, h) := by simp [tmpCanvasDims, hb]
    unfold composedDims
    rw [hd]
    exact fitDims_order w h tw th hw hh htw hth
  · intro rot hrot
    have hb : rotated90or270 rot = true := by
      rcases hrot with h' | h' <;> simp [rotated90or270, h']
    have hd : tmpCanvasDims w h rot = (h, w) := by simp [tmpCanvasDims, hb]
    unfold composedDims
    rw [hd]
    exact fitDims_order h w tw th hh hw htw hth

/-- C4 witness: for a 200 by 100 source in a 105 by 148.5 box the
intermediate dimensions and the output ordering behave as stated at
rotations 0 and 90. -/
theorem compositor_swap_dims_witness :
    tmpCanvasDims 200 100 0 = ((200 : ℚ), (100 : ℚ)) ∧
    tmpCanvasDims 200 100 90 = ((100 : ℚ), (200 : ℚ)) ∧
    ((composedDims 200 100 0 105 (297 / 2)).2 ≤
        (composedDims 200 100 0 105 (297 / 2)).1 ↔ (100 : ℚ) ≤ 200) ∧
    ((composedDims 200 100 90 105 (297 / 2)).2 ≤
        (composedDims 200 100 90 105 (297 / 2)).1 ↔ (200 : ℚ) ≤ 100) := by
  have h := compositor_swap_dims 200 100 105 (297 / 2)
    (by norm_num) (by norm_num) (by norm_num) (by norm_num)
  exact ⟨h.1, h.2.2.1, h.2.2.2.2.1 0 (Or.inl rfl), h.2.2.2.2.2 90 (Or.inl rfl)⟩

/-- C9 counterexample: at the out-of-range rotation 45 the compositor of
the source still produces a bitmap, here of dimensions 105 by 105 for a
100 by 100 source in a 105 by 148.5 box, instead of failing. -/
theorem compositor_rotation45_produces_bitmap :
    composedDims 100 100 45 105 (297 / 2) = (105, 105) := by
  norm_num [composedDims, tmpCanvasDims, rotated90or270, fitDims]

/-- C9 amended: `drawRotatedCanvas` performs no validation of the
rotation; every rotation outside the four right angles is treated as
non-axis-swapping and a bitmap with positive dimensions is produced. -/
theorem compositor_accepts_any_rotation (w h tw th : ℚ) (rot : ℕ)
    (hw : 0 < w) (hh : 0 < h) (htw : 0 < tw) (hth : 0 < th)
    (hrot : ¬(rot = 0 ∨ rot = 90 ∨ rot = 180 ∨ rot = 270)) :
    0 < (composedDims w h rot tw th).1 ∧
    0 < (composedDims w h rot tw th).2 ∧
    composedDims w h rot tw th = fitDims w h tw th := by
  push_neg at hrot
  have hb : rotated90or270 rot = false :=
    rotated90or270_false rot hrot.2.1 hrot.2.2.2
  have hd : tmpCanvasDims w h rot = (w, h) := by simp [tmpCanvasDims, hb]
  obtain ⟨p1, p2, _, _, _⟩ := fitDims_spec w h tw th hw hh htw hth
  unfold composedDims
  rw [hd]
  exact ⟨p1, p2, rfl⟩

/-- C9 amended witness: at rotation 45 for a 100 by 100 source in a
105 by 148.5 box the produced bitmap has positive dimensions. -/
theorem compositor_accepts_any_rotation_witness :
    0 < (composedDims 100 100 45 105 (297 / 2)).1 ∧
    0 < (composedDims 100 100 45 105 (297 / 2)).2 ∧
    composedDims 100 100 45 105 (297 / 2) = fitDims 100 100 105 (297 / 2) := by
  exact compositor_accepts_any_rotation 100 100 105 (297 / 2) 45
    (by norm_num) (by norm_num) (by norm_num) (by norm_num) (by norm_num)

/- Page geometry constants of `generatePDF` (A4 portrait, 2 by 2 grid). -/

def pageWidth : ℚ := 210
def pageHeight : ℚ := 297
def cols : ℕ := 2
def rows : ℕ := 2
def imagesPerPage : ℕ := cols * rows
def cellWidth : ℚ := pageWidth / cols
def cellHeight : ℚ := pageHeight / rows

/-- One placed image: the physical page it lands on (counting the pages
the document has started, the first page being 0) and its rectangle in
millimetres. -/
structure Placement where
  pageIndex : ℕ
  x : ℚ
  y : ℚ
  width : ℚ
  height : ℚ
deriving DecidableEq, Repr

/-- Embedding of the placement loop of `generatePDF`: `remaining` counts
the images still to place, `indexInPage` and `page` carry the running
position on the current page and the number of the current page; a new
page is added exactly when the page is full and images remain. -/
def planGo : ℕ → ℕ → ℕ → List Placement
  | 0, _, _ => []
  | remaining + 1, indexInPage, page =>
    let row := indexInPage / cols
    let col := indexInPage % cols
    let p : Placement :=
      ⟨page, col * cellWidth, row * cellHeight, cellWidth, cellHeight⟩
    if indexInPage + 1 = imagesPerPage ∧ 0 < remaining then
      p :: planGo remaining 0 (page + 1)
    else
      p :: planGo remaining (indexInPage + 1) page

/-- The list of placements `generatePDF` produces for `n` images. -/
def generatePDFplan (n : ℕ) : List Placement := planGo n 0 0

/-- Closed form of the placement of the image with global index `i`. -/
def placementAt (i : ℕ) : Placement :=
  ⟨i / 4, (i % 4 % 2 : ℕ) * cellWidth, (i % 4 / 2 : ℕ) * cellHeight,
    cellWidth, cellHeight⟩

lemma imagesPerPage_eq : imagesPerPage = 4 := rfl

lemma planGo_length : ∀ (r i p : ℕ), (planGo r i p).length = r
  | 0, _, _ => rfl
  | r + 1, i, p => by
    unfold planGo
    split <;> simp [planGo_length r]

lemma planGo_get? : ∀ (r k j : ℕ), j < r →
    (planGo r (k % 4) (k / 4)).get? j = some (placementAt (k + j))
  | 0, _, _, hj => absurd hj (Nat.not_lt_zero _)
  | r + 1, k, 0, _ => by
    unfold planGo
    split
    · simp [placementAt, cols, imagesPerPage, rows]
    · simp [placementAt, cols, imagesPerPage, rows]
  | r + 1, k, j + 1, hj => by
    have hj' : j < r := Nat.lt_of_succ_lt_succ hj
    unfold planGo
    split
    · rename_i hcond
      rw [imagesPerPage_eq] at hcond
      have h4 : k % 4 = 3 := by omega
      simp only [List.get?]
      have hrec := planGo_get? r (k + 1) j hj'
      have e1 : (k + 1) % 4 = 0 := by omega
      have e2 : (k + 1) / 4 = k / 4 + 1 := by omega
      have e3 : k + 1 + j = k + (j + 1) := by omega
      rw [e1, e2, e3] at hrec
      exact hrec
    · rename_i hcond
      rw [imagesPerPage_eq] at hcond
      simp only [List.get?]
      rcases Nat.eq_zero_or_pos r with hr | hr
      · omega
      · have h4 : k % 4 + 1 ≠ 4 := fun hc => hcond ⟨hc, hr⟩
        have hrec := planGo_get? r (k + 1) j hj'
        have e1 : (k + 1) % 4 = k % 4 + 1 := by omega
        have e2 : (k + 1) / 4 = k / 4 := by omega
        have e3 : k + 1 + j = k + (j + 1) := by omega
        rw [e1, e2, e3] at hrec
        exact hrec

/-- C1: for the fixed 2 by 2 A4 geometry, image `i` of `n` is placed on
page `i / 4` at `x = (i mod 4 mod 2) * 105`, `y = (i mod 4 / 2) * 148.5`
with size 105 by 148.5; the physical page advances by one exactly at the
indices divisible by 4; and for 5 images the concrete plan is images 0-3
on page 0 at the four grid corners and image 4 alone on page 1. -/
theorem layout_plan_correct (n i : ℕ) (h : i < n) :
    (generatePDFplan n).get? i =
      some ⟨i / 4, (i % 4 % 2 : ℕ) * 105, (i % 4 / 2 : ℕ) * (297 / 2),
        105, 297 / 2⟩ ∧
    (∀ j : ℕ, 0 < j → j < n →
      ((generatePDFplan n).get? j).map Placement.pageIndex =
        (((generatePDFplan n).get? (j - 1)).map Placement.pageIndex).map
          (fun p => p + if j % 4 = 0 then 1 else 0)) ∧
    generatePDFplan 5 =
      [⟨0, 0, 0, 105, 297 / 2⟩, ⟨0, 105, 0, 105, 297 / 2⟩,
        ⟨0, 0, 297 / 2, 105, 297 / 2⟩, ⟨0, 105, 297 / 2, 105, 297 / 2⟩,
        ⟨1, 0, 0, 105, 297 / 2⟩] := by
  have hcw : cellWidth = 105 := by
    norm_num [cellWidth, pageWidth, cols]
  have hch : cellHeight = 297 / 2 := by
    norm_num [cellHeight, pageHeight, rows]
  have hget : ∀ m : ℕ, m < n → (generatePDFplan n).get? m =
      some (placementAt m) := by
    intro m hm
    have := planGo_get? n 0 m hm
    simpa [generatePDFplan] using this
  refine ⟨?_, ?_, ?_⟩
  · rw [hget i h]
    simp [placementAt, hcw, hch]
  · intro j hj0 hjn
    have hpi : ∀ m : ℕ, (placementAt m).pageIndex = m / 4 := fun m => rfl
    rw [hget j hjn, hget (j - 1) (by omega)]
    simp only [Option.map_some', hpi, Option.some.injEq]
    rcases Nat.eq_zero_or_pos (j % 4) with h4 | h4
    · rw [if_pos h4]
      omega
    · rw [if_neg (by omega)]
      omega
  · have hget5 : ∀ m : ℕ, m < 5 →
        (generatePDFplan 5).get? m = some (placementAt m) := by
      intro m hm
      simpa [generatePDFplan] using planGo_get? 5 0 m hm
    have hlen5 : (generatePDFplan 5).length = 5 := planGo_length 5 0 0
    apply List.ext_get?
    intro m
    by_cases hm : m < 5
    · rw [hget5 m hm]
      interval_cases m <;> norm_num [placementAt, hcw, hch, List.get?]
    · push_neg at hm
      rw [List.get?_eq_none.mpr (by omega), List.get?_eq_none.mpr (by simp; omega)]

/-- C1 witness: in a document of 5 images, image 4 is placed on page 1
at the top left corner. -/
theorem layout_plan_correct_witness :
    (generatePDFplan 5).get? 4 =
      some ⟨4 / 4, ((4 : ℕ) % 4 % 2 : ℕ) * 105, ((4 : ℕ) % 4 / 2 : ℕ) * (297 / 2),
        105, 297 / 2⟩ :=
  (layout_plan_correct 5 4 (by norm_num)).1

/-- C2: evaluation of the code at the divergence point. The composed
bitmap of a square 100 by 100 source at rotation 0 has dimensions
105 by 105 (aspect ratio 1), yet every placement rectangle of
`generatePDF` is the full cell of size 105 by 148.5, whose aspect ratio
is not 1: the `addImage` placement step stretches the fitted bitmap. -/
theorem placement_rect_ignores_bitmap_ratio (n i : ℕ) (h : i < n) :
    composedDims 100 100 0 cellWidth cellHeight = (105, 105) ∧
    (105 : ℚ) / 105 ≠ cellWidth / cellHeight ∧
    ((generatePDFplan n).get? i).map (fun p => (p.width, p.height)) =
      some (cellWidth, cellHeight) := by
  refine ⟨?_, ?_, ?_⟩
  · norm_num [composedDims, tmpCanvasDims, rotated90or270, fitDims,
      cellWidth, cellHeight, pageWidth, pageHeight, cols, rows]
  · norm_num [cellWidth, cellHeight, pageWidth, pageHeight, cols, rows]
  · have hget := planGo_get? n 0 i h
    simp only [Nat.zero_mod, Nat.zero_div, Nat.zero_add] at hget
    show ((planGo n 0 0).get? i).map _ = _
    rw [hget]
    rfl

/-- C2 witness: the divergence at one image on one page. -/
theorem placement_rect_ignores_bitmap_ratio_witness :
    composedDims 100 100 0 cellWidth cellHeight = (105, 105) ∧
    (105 : ℚ) / 105 ≠ cellWidth / cellHeight ∧
    ((generatePDFplan 1).get? 0).map (fun p => (p.width, p.height)) =
      some (cellWidth, cellHeight) :=
  placement_rect_ignores_bitmap_ratio 1 0 (by norm_num)

/-- Outcome of one `generatePDF` invocation: the warning shown to the
user, if any, and the saved document (its pages of placements), if one
was persisted. -/
structure GenOutcome where
  alertMsg : Option String
  artifact : Option (List (List Placement))

/-- Number of physical pages the plan spans. -/
def pageCount (ps : List Placement) : ℕ :=
  ps.foldr (fun p acc => max (p.pageIndex + 1) acc) 0

/-- Group a plan into its physical pages. -/
def paginate (ps : List Placement) : List (List Placement) :=
  (List.range (pageCount ps)).map (fun k => ps.filter (fun p => p.pageIndex == k))

/-- Embedding of the `generatePDF` entry point: with no images selected
it alerts and returns before any document is created; otherwise it lays
out all images and saves the document. -/
def generatePDF (images : List ImageEntry) : GenOutcome :=
  if images.length = 0 then
    { alertMsg := some "No images selected!", artifact := none }
  else
    { alertMsg := none,
      artifact := some (paginate (generatePDFplan images.length)) }

/-- Number of pages of the persisted artifact, zero when none. -/
def numPages (o : GenOutcome) : ℕ :=
  (o.artifact.map List.length).getD 0

/-- C6: generating from an empty entry list shows the user-facing
warning, persists no artifact and produces zero pages. -/
theorem generate_empty_input :
    generatePDF [] =
      { alertMsg := some "No images selected!", artifact := none } ∧
    (generatePDF []).artifact = none ∧
    numPages (generatePDF []) = 0 :=
  ⟨rfl, rfl, rfl⟩

/-- Embedding of `moveItem(arr, fromIndex, toIndex)`: out-of-bounds
`toIndex` returns the array unchanged, otherwise the element at
`fromIndex` is spliced out and re-inserted at `toIndex`. The callers
(`moveUp`, `moveDown`) always pass a `fromIndex` of an existing entry,
so the fallback arm for a missing `fromIndex` is never exercised. -/
def moveItem {α : Type u} (arr : List α) (fromIndex toIndex : ℤ) : List α :=
  if toIndex < 0 ∨ (arr.length : ℤ) ≤ toIndex then arr
  else
    match arr.get? fromIndex.toNat with
    | none => arr
    | some item => (arr.eraseIdx fromIndex.toNat).insertIdx toIndex.toNat item

/-- Embedding of `moveUp(index)`. -/
def moveUp {α : Type u} (arr : List α) (index : ℤ) : List α :=
  moveItem arr index (index - 1)

/-- Embedding of `moveDown(index)`. -/
def moveDown {α : Type u} (arr : List α) (index : ℤ) : List α :=
  moveItem arr index (index + 1)

lemma get?_append_len_succ {α : Type u} :
    ∀ (l₁ : List α) (a b : α) (l₂ : List α),
      (l₁ ++ a :: b :: l₂).get? (l₁.length + 1) = some b
  | [], _, _, _ => rfl
  | x :: xs, a, b, l₂ => by
    simpa using get?_append_len_succ xs a b l₂

lemma get?_append_len {α : Type u} :
    ∀ (l₁ : List α) (a : α) (l₂ : List α),
      (l₁ ++ a :: l₂).get? l₁.length = some a
  | [], _, _ => rfl
  | x :: xs, a, l₂ => by
    simpa using get?_append_len xs a l₂

lemma eraseIdx_append_len_succ {α : Type u} :
    ∀ (l₁ : List α) (a b : α) (l₂ : List α),
      (l₁ ++ a :: b :: l₂).eraseIdx (l₁.length + 1) = l₁ ++ a :: l₂
  | [], _, _, _ => rfl
  | x :: xs, a, b, l₂ => by
    simpa using eraseIdx_append_len_succ xs a b l₂

lemma eraseIdx_append_len {α : Type u} :
    ∀ (l₁ : List α) (a : α) (l₂ : List α),
      (l₁ ++ a :: l₂).eraseIdx l₁.length = l₁ ++ l₂
  | [], _, _ => rfl
  | x :: xs, a, l₂ => by
    simpa using eraseIdx_append_len xs a l₂

lemma insertIdx_append_len {α : Type u} :
    ∀ (l₁ : List α) (b : α) (l₂ : List α),
      (l₁ ++ l₂).insertIdx l₁.length b = l₁ ++ b :: l₂
  | [], _, _ => rfl
  | x :: xs, b, l₂ => by
    simpa [List.insertIdx] using insertIdx_append_len xs b l₂

lemma insertIdx_append_len_succ {α : Type u} :
    ∀ (l₁ : List α) (a b : α) (l₂ : List α),
      (l₁ ++ a :: l₂).insertIdx (l₁.length + 1) b = l₁ ++ a :: b :: l₂
  | [], _, _, _ => rfl
  | x :: xs, a, b, l₂ => by
    simpa [List.insertIdx] using insertIdx_append_len_succ xs a b l₂

/-- C7: `moveUp` at index 0 and `moveDown` at the last index are no-ops
returning the list unchanged, while at every interior index `moveUp`
swaps the entry with its predecessor and `moveDown` with its
successor. -/
theorem move_noop_and_swap {α : Type u} (arr l₁ l₂ : List α) (a b : α) :
    moveUp arr 0 = arr ∧
    moveDown arr ((arr.length : ℤ) - 1) = arr ∧
    moveUp (l₁ ++ a :: b :: l₂) ((l₁.length : ℤ) + 1) = l₁ ++ b :: a :: l₂ ∧
    moveDown (l₁ ++ a :: b :: l₂) (l₁.length : ℤ) = l₁ ++ b :: a :: l₂ := by
  have hlen : ((l₁ ++ a :: b :: l₂).length : ℤ) =
      (l₁.length : ℤ) + (l₂.length : ℤ) + 2 := by
    push_cast [List.length_append, List.length_cons]
    ring
  refine ⟨?_, ?_, ?_, ?_⟩
  · unfold moveUp moveItem
    rw [if_pos]
    exact Or.inl (by norm_num)
  · unfold moveDown moveItem
    rw [if_pos]
    exact Or.inr (by omega)
  · unfold moveUp moveItem
    rw [if_neg (by omega)]
    have hf : ((l₁.length : ℤ) + 1).toNat = l₁.length + 1 := by omega
    have ht : ((l₁.length : ℤ) + 1 - 1).toNat = l₁.length := by omega
    simp only [hf, ht, get?_append_len_succ, eraseIdx_append_len_succ,
      insertIdx_append_len]
  · unfold moveDown moveItem
    rw [if_neg (by omega)]
    have hf : ((l₁.length : ℤ)).toNat = l₁.length := by omega
    have ht : ((l₁.length : ℤ) + 1).toNat = l₁.length + 1 := by omega
    simp only [hf, ht, get?_append_len, eraseIdx_append_len,
      insertIdx_append_len_succ]

/-- C5 witness: concrete evaluations of the unit converter. -/
theorem mmToPx_spec_witness :
    mmToPx 1 150 = round ((1 : ℚ) * 150 / (254 / 10)) ∧
    mmToPx 1 150 ≤ mmToPx 2 150 ∧
    mmToPx 1 150 ≤ mmToPx 1 300 ∧
    mmToPx (254 / 10) 150 = 150 := by
  have h := mmToPx_spec 1 2 150 300 (by norm_num) (by norm_num)
    (by norm_num) (by norm_num)
  exact ⟨h.1, h.2.1 (by norm_num), h.2.2.1 (by norm_num), h.2.2.2⟩

/-- Embedding of `rotateImage(index)`: the entry at the index gets its
rotation advanced by 90 degrees modulo 360, in place. The UI only ever
calls it with the index of an existing entry. -/
def rotateImage : List ImageEntry → ℕ → List ImageEntry
  | [], _ => []
  | e :: rest, 0 => { e with rotation := (e.rotation + 90) % 360 } :: rest
  | e :: rest, i + 1 => e :: rotateImage rest i

lemma rotateImage_length : ∀ (l : List ImageEntry) (i : ℕ),
    (rotateImage l i).length = l.length
  | [], _ => rfl
  | _ :: rest, 0 => rfl
  | _ :: rest, i + 1 => by
    simpa [rotateImage] using rotateImage_length rest i

lemma rotateImage_get_self : ∀ (l : List ImageEntry) (i : ℕ) (e : ImageEntry),
    l.get? i = some e →
    (rotateImage l i).get? i = some { e with rotation := (e.rotation + 90) % 360 }
  | [], i, e, h => by simp [List.get?] at h
  | x :: rest, 0, e, h => by
    have hx : x = e := by simpa using h
    subst hx
    rfl
  | x :: rest, i + 1, e, h => by
    simpa [rotateImage] using rotateImage_get_self rest i e (by simpa using h)

lemma rotateImage_get_other : ∀ (l : List ImageEntry) (i j : ℕ), j ≠ i →
    (rotateImage l i).get? j = l.get? j
  | [], _, _, _ => by simp [rotateImage]
  | x :: rest, 0, 0, hne => absurd rfl hne
  | x :: rest, 0, j + 1, _ => by simp [rotateImage]
  | x :: rest, i + 1, 0, _ => by simp [rotateImage]
  | x :: rest, i + 1, j + 1, hne => by
    simpa [rotateImage] using
      rotateImage_get_other rest i j (fun hc => hne (by omega))

lemma rotateImage_four : ∀ (l : List ImageEntry) (i : ℕ) (e : ImageEntry),
    l.get? i = some e →
    (e.rotation = 0 ∨ e.rotation = 90 ∨ e.rotation = 180 ∨ e.rotation = 270) →
    rotateImage (rotateImage (rotateImage (rotateImage l i) i) i) i = l
  | [], i, e, h, _ => by simp [List.get?] at h
  | x :: rest, 0, e, h, hr => by
    have hx : x = e := by simpa using h
    subst hx
    obtain ⟨f, r⟩ := x
    simp only [rotateImage]
    rcases hr with h' | h' | h' | h' <;>
      (simp only at h'; subst h'; rfl)
  | x :: rest, i + 1, e, h, hr => by
    simp only [rotateImage, List.cons.injEq]
    exact ⟨trivial, rotateImage_four rest i e (by simpa using h) hr⟩

/-- C8: rotating an entry at a valid index advances its rotation to
`(rotation + 90) mod 360`, and four rotations return the collection to
its original state for every starting rotation among the four right
angles. -/
theorem rotate_quarter_turn (l : List ImageEntry) (i : ℕ) (e : ImageEntry)
    (h : l.get? i = some e)
    (hr : e.rotation = 0 ∨ e.rotation = 90 ∨ e.rotation = 180 ∨
      e.rotation = 270) :
    (rotateImage l i).get? i =
      some { e with rotation := (e.rotation + 90) % 360 } ∧
    rotateImage (rotateImage (rotateImage (rotateImage l i) i) i) i = l :=
  ⟨rotateImage_get_self l i e h, rotateImage_four l i e h hr⟩

/-- C8 witness: one entry at rotation 0 reaches 90 after one rotation
and is back unchanged after four. -/
theorem rotate_quarter_turn_witness :
    (rotateImage [⟨0, 0⟩] 0).get? 0 = some ⟨0, 90⟩ ∧
    rotateImage (rotateImage (rotateImage (rotateImage [⟨0, 0⟩] 0) 0) 0) 0 =
      [⟨0, 0⟩] := by
  have h := rotate_quarter_turn [⟨0, 0⟩] 0 ⟨0, 0⟩ rfl (Or.inl rfl)
  exact ⟨h.1, h.2⟩

/-- C10: rotating the entry at a valid index preserves the length of the
collection, every other entry entirely, and the file reference of the
rotated entry itself. -/
theorem rotate_frame (l : List ImageEntry) (i : ℕ) (h : i < l.length) :
    (rotateImage l i).length = l.length ∧
    (∀ j : ℕ, j ≠ i → (rotateImage l i).get? j = l.get? j) ∧
    ((rotateImage l i).get? i).map ImageEntry.file =
      (l.get? i).map ImageEntry.file := by
  refine ⟨rotateImage_length l i, fun j hj => rotateImage_get_other l i j hj, ?_⟩
  have he : l.get? i = some (l.get ⟨i, h⟩) := List.get?_eq_get h
  rw [he, rotateImage_get_self l i (l.get ⟨i, h⟩) he]
  rfl

/-- C10 witness: rotating entry 0 of a two-entry collection keeps the
length, the second entry and the first file reference. -/
theorem rotate_frame_witness :
    (rotateImage [⟨5, 0⟩, ⟨7, 90⟩] 0).length = 2 ∧
    (rotateImage [⟨5, 0⟩, ⟨7, 90⟩] 0).get? 1 = some ⟨7, 90⟩ ∧
    ((rotateImage [⟨5, 0⟩, ⟨7, 90⟩] 0).get? 0).map ImageEntry.file = some 5 := by
  have h := rotate_frame [⟨5, 0⟩, ⟨7, 90⟩] 0 (by norm_num)
  exact ⟨h.1, (h.2.1 1 (by norm_num)).trans rfl, h.2.2.trans rfl⟩

end Pics2PDF
